import Mathlib

/-!
Verification development for the jaksel-lang interpreter pipeline
(scanner, recursive-descent parser, tree-walking interpreter).

The definitions below are shallow embeddings of the TypeScript sources:
  - src/jakselv2/scanner.ts      (Scanner)
  - src/jakselv2/token.ts        (Token, TokenType; the enum in src/unnamed/part_000)
  - src/jakselv2/environment.ts  (Environment)
  - src/jakselv2/error.ts        (RuntimeError, Interpreter, ConsoleErrorReporter)
  - src/jakselv2/jaksel.ts       (Jaksel.run)
  - src/unnamed/part_001         (Parser)
  - src/lib/jaksel.ts            (the older Interpreter variant, equality cases)

JavaScript floating-point numbers are modelled by rationals; all values
exercised by the claims are small integers and short strings, where the
two agree. Mutable heap objects (the Environment scope chain, the parser
and scanner cursors) are modelled by explicit state passing; thrown
exceptions by explicit error results that carry the state at throw time.
-/

/-- Runtime value: the tagged union of JS values the interpreter produces
(string, number, boolean, null). `vnull` models the JS `null`. -/
inductive Value where
  | num (q : ℚ)
  | str (s : String)
  | jbool (b : Bool)
  | vnull
deriving DecidableEq, Repr

/-- TokenType from src/unnamed/part_000 (the enum of the parser variant).
The parser in src/unnamed/part_001 also references KALO, PERHAPS, KALOGAK
and UDAHAN, which the enum in src lacks; they are added here with the
names the parser uses (the if/else-if/else/end keywords of the spec
grammar). -/
inductive TokenType where
  | LEFT_PAREN | RIGHT_PAREN | COMMA | DOT | MINUS | PLUS | SLASH | STAR
  | PERCENT | NEWLINE
  | BANG | BANG_EQUAL | EQUAL | EQUAL_EQUAL
  | GREATER | GREATER_EQUAL | LESS | LESS_EQUAL
  | IDENTIFIER | STRING | NUMBER | EOF
  | TRUE | FALSE | NIL
  | FOMO | ENDUP
  | THATS | IT | SIH
  | SPILL
  | LITERALLY | SERIOUSLY | WHICHIS | ITU
  | SO | ABOUT | OVERTHINKING | CALL
  | KALO | PERHAPS | KALOGAK | UDAHAN
deriving DecidableEq, Repr

/-- Token from src/jakselv2/token.ts: kind, exact lexeme, decoded literal
(`vnull` models the TS `null` literal field), 1-based line, and column.
The source computes a token column as `column - (current - start)` in JS
number arithmetic, so the column is an integer here. -/
structure Token where
  type : TokenType
  lexeme : String
  literal : Value
  line : ℕ
  column : ℤ
deriving DecidableEq, Repr

/-- A diagnostic recorded through ErrorReporter.error: line, optional
column (the scanner reports unterminated strings without a column), and
message. -/
structure SErr where
  line : ℕ
  column : Option ℤ
  message : String
deriving DecidableEq, Repr

/-- Scanner.isDigit from src/jakselv2/scanner.ts. -/
def isDigit (c : Char) : Bool := '0' ≤ c && c ≤ '9'

/-- Scanner.isAlpha from src/jakselv2/scanner.ts. -/
def isAlpha (c : Char) : Bool :=
  ('a' ≤ c && c ≤ 'z') || ('A' ≤ c && c ≤ 'Z') || c = '_'

/-- Scanner.isAlphaNumeric from src/jakselv2/scanner.ts. -/
def isAlphaNumeric (c : Char) : Bool := isAlpha c || isDigit c

/-- Decimal digits to a natural number, as parseFloat reads the integer
or fraction part of a numeric literal. -/
def charsToNat (ds : List Char) : ℕ :=
  ds.foldl (fun n c => 10 * n + (c.toNat - 48)) 0

/-- The Keywords map of src/jakselv2/scanner.ts, as the association list
it is built from. -/
def Keywords : List (String × TokenType) :=
  [("ril", .TRUE), ("impossible", .FALSE), ("hampa", .NIL),
   ("fomo", .FOMO), ("endup", .ENDUP),
   ("thats", .THATS), ("it", .IT), ("sih", .SIH),
   ("spill", .SPILL),
   ("literally", .LITERALLY), ("seriously", .SERIOUSLY),
   ("whichis", .WHICHIS), ("itu", .ITU),
   ("so", .SO), ("about", .ABOUT), ("overthinking", .OVERTHINKING),
   ("call", .CALL)]

/-- Scanner.identifier keyword step: Keywords.get(text), falling back to
IDENTIFIER when the map has no entry. -/
def keywordType (s : String) : TokenType :=
  (Keywords.lookup s).getD .IDENTIFIER

/-- The outcome of one Scanner.scanToken call: at most one token, at most
one reported error, the advance of the cursor past the first character
(`k` more characters were consumed), and the updated line/column
counters. -/
structure ScanOut where
  tok : Option Token
  err : Option SErr
  k : ℕ
  line : ℕ
  col : ℤ
deriving Repr

/-- A one- or two-character operator token (Scanner.match: one-character
lookahead for `=`, consuming it on success). `col1` is the column counter
after the first character was consumed. -/
def twoCharOp (one two : TokenType) (lex1 : String)
    (rest : List Char) (line : ℕ) (col1 : ℤ) : ScanOut :=
  match rest with
  | '=' :: _ =>
      ⟨some ⟨two, lex1 ++ "=", .vnull, line, (col1 + 1) - 2⟩, none, 1, line, col1 + 1⟩
  | _ =>
      ⟨some ⟨one, lex1, .vnull, line, col1 - 1⟩, none, 0, line, col1⟩

/-- Scanner.string: consume until the closing quote, tracking line/column
per character (a newline inside the string bumps the line and resets the
column before the character is consumed); report "Unterminated string."
when input ends first. -/
def strLex (rest : List Char) (line : ℕ) (col1 : ℤ) : ScanOut :=
  let content := rest.takeWhile (· ≠ '"')
  let lc := content.foldl
    (fun (p : ℕ × ℤ) ch => if ch = '\n' then (p.1 + 1, 2) else (p.1, p.2 + 1))
    (line, col1)
  if content.length = rest.length then
    ⟨none, some ⟨lc.1, none, "Unterminated string."⟩, content.length, lc.1, lc.2⟩
  else
    let lexeme : String := ⟨'"' :: (content ++ ['"'])⟩
    ⟨some ⟨.STRING, lexeme, .str ⟨content⟩, lc.1, (lc.2 + 1) - (lexeme.length : ℤ)⟩,
      none, content.length + 1, lc.1, lc.2 + 1⟩

/-- Scanner.number: digits, then optionally a dot followed by at least
one digit (checked with peekNext), decoded eagerly. -/
def numLex (c : Char) (rest : List Char) (line : ℕ) (col1 : ℤ) : ScanOut :=
  let intD := rest.takeWhile isDigit
  let rest1 := rest.drop intD.length
  let colA := col1 + (intD.length : ℤ)
  match rest1 with
  | '.' :: d :: _ =>
      if isDigit d then
        let fracD := (rest1.drop 1).takeWhile isDigit
        let lexeme : String := ⟨c :: intD ++ '.' :: fracD⟩
        let value : ℚ := (charsToNat (c :: intD) : ℚ) +
          (charsToNat fracD : ℚ) / (10 : ℚ) ^ fracD.length
        let colB := colA + 1 + (fracD.length : ℤ)
        ⟨some ⟨.NUMBER, lexeme, .num value, line, colB - (lexeme.length : ℤ)⟩,
          none, intD.length + 1 + fracD.length, line, colB⟩
      else
        let lexeme : String := ⟨c :: intD⟩
        ⟨some ⟨.NUMBER, lexeme, .num (charsToNat (c :: intD) : ℚ), line,
          colA - (lexeme.length : ℤ)⟩, none, intD.length, line, colA⟩
  | _ =>
      let lexeme : String := ⟨c :: intD⟩
      ⟨some ⟨.NUMBER, lexeme, .num (charsToNat (c :: intD) : ℚ), line,
        colA - (lexeme.length : ℤ)⟩, none, intD.length, line, colA⟩

/-- Scanner.identifier: letters/digits/underscore, then the keyword
table. -/
def identLex (c : Char) (rest : List Char) (line : ℕ) (col1 : ℤ) : ScanOut :=
  let tailD := rest.takeWhile isAlphaNumeric
  let text : String := ⟨c :: tailD⟩
  ⟨some ⟨keywordType text, text, .vnull, line,
    (col1 + (tailD.length : ℤ)) - (text.length : ℤ)⟩, none, tailD.length, line,
    col1 + (tailD.length : ℤ)⟩

/-- Scanner.scanToken from src/jakselv2/scanner.ts: one dispatch on the
character just consumed (the source switch). `col` is the column counter
before the character; advance() makes it `col + 1`. -/
def scanToken (c : Char) (rest : List Char) (line : ℕ) (col : ℤ) : ScanOut :=
  let col1 := col + 1
  match c with
  | '(' => ⟨some ⟨.LEFT_PAREN, "(", .vnull, line, col1 - 1⟩, none, 0, line, col1⟩
  | ')' => ⟨some ⟨.RIGHT_PAREN, ")", .vnull, line, col1 - 1⟩, none, 0, line, col1⟩
  | ',' => ⟨some ⟨.COMMA, ",", .vnull, line, col1 - 1⟩, none, 0, line, col1⟩
  | '.' => ⟨some ⟨.DOT, ".", .vnull, line, col1 - 1⟩, none, 0, line, col1⟩
  | '-' => ⟨some ⟨.MINUS, "-", .vnull, line, col1 - 1⟩, none, 0, line, col1⟩
  | '+' => ⟨some ⟨.PLUS, "+", .vnull, line, col1 - 1⟩, none, 0, line, col1⟩
  | '*' => ⟨some ⟨.STAR, "*", .vnull, line, col1 - 1⟩, none, 0, line, col1⟩
  | '/' => ⟨some ⟨.SLASH, "/", .vnull, line, col1 - 1⟩, none, 0, line, col1⟩
  | '!' => twoCharOp .BANG .BANG_EQUAL "!" rest line col1
  | '=' => twoCharOp .EQUAL .EQUAL_EQUAL "=" rest line col1
  | '<' => twoCharOp .LESS .LESS_EQUAL "<" rest line col1
  | '>' => twoCharOp .GREATER .GREATER_EQUAL ">" rest line col1
  | '#' =>
      ⟨none, none, (rest.takeWhile (· ≠ '\n')).length, line,
        col1 + ((rest.takeWhile (· ≠ '\n')).length : ℤ)⟩
  | ' ' | '\r' | '\t' => ⟨none, none, 0, line, col1⟩
  | '\n' => ⟨some ⟨.NEWLINE, "\n", .vnull, line, col1 - 1⟩, none, 0, line + 1, 1⟩
  | '"' => strLex rest line col1
  | c =>
      if isDigit c then numLex c rest line col1
      else if isAlpha c then identLex c rest line col1
      else ⟨none, some ⟨line, some (col1 - 1), "Unexpected character."⟩, 0, line, col1⟩

/-- The scanTokens loop: run scanToken until the input is exhausted,
collecting tokens and diagnostics; returns the final line/column for the
EOF token. The fuel argument makes the recursion structural; each
iteration consumes at least one character, so fuel equal to the input
length (as scanTokens passes) never runs out — see
scanLoop_fuel_sufficient. -/
def scanLoop : ℕ → List Char → ℕ → ℤ → List Token × List SErr × ℕ × ℤ
  | _, [], line, col => ([], [], line, col)
  | 0, _ :: _, line, col => ([], [], line, col)
  | n + 1, c :: rest, line, col =>
      let o := scanToken c rest line col
      let r := scanLoop n (rest.drop o.k) o.line o.col
      (o.tok.toList ++ r.1, o.err.toList ++ r.2.1, r.2.2)

theorem scanLoop_fuel_sufficient (n : ℕ) :
    ∀ (cs : List Char) (line : ℕ) (col : ℤ), cs.length ≤ n →
      scanLoop n cs line col = scanLoop cs.length cs line col := by
  induction n using Nat.strong_induction_on with
  | _ n ih =>
      intro cs line col h
      match n, cs with
      | n, [] => cases n <;> rfl
      | 0, c :: rest => simp at h
      | m + 1, c :: rest =>
          simp only [List.length_cons] at h ⊢
          simp only [scanLoop]
          have hd := List.length_drop ((scanToken c rest line col).k) rest
          rw [ih m (by omega) _ _ _ (by omega),
            ih rest.length (by omega) _ _ _ (by omega)]

/-- Scanner.scanTokens from src/jakselv2/scanner.ts: scan the whole
source, then push one EOF token carrying the final line and column. -/
def scanTokens (cs : List Char) : List Token × List SErr :=
  let r := scanLoop cs.length cs 1 1
  (r.1 ++ [⟨.EOF, "", .vnull, r.2.2.1, r.2.2.2⟩], r.2.1)

/-- RuntimeError from src/jakselv2/error.ts: the offending token and a
message. -/
structure RuntimeError where
  token : Token
  message : String
deriving DecidableEq, Repr

/-- Environment from src/jakselv2/environment.ts: a Map of bindings plus
an optional enclosing scope (a singly linked scope chain). The Map is
modelled by an insertion-ordered association list. -/
inductive Environment where
  | mk (values : List (String × Value)) (enclosing : Option Environment)
deriving Repr

/-- Map.has. -/
def containsKey (m : List (String × Value)) (k : String) : Bool :=
  m.any (fun p => p.1 = k)

/-- Map.get (the name is present when used below). -/
def getKey (m : List (String × Value)) (k : String) : Option Value :=
  (m.find? (fun p => p.1 = k)).map Prod.snd

/-- Map.set: overwrite in place when present, append otherwise. -/
def setKey (m : List (String × Value)) (k : String) (v : Value) :
    List (String × Value) :=
  match m with
  | [] => [(k, v)]
  | (k', v') :: rest =>
      if k' = k then (k', v) :: rest else (k', v') :: setKey rest k v

/-- Environment.get: look in the current scope, then walk outward; throw
RuntimeError when the chain is exhausted. -/
def Environment.get (env : Environment) (name : Token) :
    Except RuntimeError Value :=
  match env with
  | .mk values enclosing =>
      if containsKey values name.lexeme then
        match getKey values name.lexeme with
        | some v => .ok v
        | none => .ok .vnull
      else
        match enclosing with
        | some e => e.get name
        | none => .error ⟨name, "Undefined variable " ++ name.lexeme ++ "."⟩

/-- Environment.define: always bind in the current scope. -/
def Environment.define (env : Environment) (name : String) (value : Value) :
    Environment :=
  match env with
  | .mk values enclosing => .mk (setKey values name value) enclosing

/-- Environment.assign from src/jakselv2/environment.ts, faithfully
including its fall-through: when the name is missing from the current
scope the code recurses into the enclosing scope but then ALWAYS reaches
`throw new RuntimeError(...)` — there is no `return` after the recursive
call. The result carries the scope chain after any mutation together
with the error, if one was thrown. (When the recursive call itself
throws, the thrown error carries the same token and message, so
reporting the error at this level is observationally the same.) -/
def Environment.assign (env : Environment) (name : Token) (value : Value) :
    Environment × Option RuntimeError :=
  match env with
  | .mk values enclosing =>
      if containsKey values name.lexeme then
        (.mk (setKey values name.lexeme value) enclosing, none)
      else
        match enclosing with
        | some e =>
            let r := e.assign name value
            (.mk values (some r.1),
              some ⟨name, "Undefined variable \'" ++ name.lexeme ++ "\'."⟩)
        | none =>
            (.mk values none,
              some ⟨name, "Undefined variable \'" ++ name.lexeme ++ "\'."⟩)

/-- Expression nodes from src/jakselv2/ast.ts and src/unnamed/part_000
(Literal, Grouping, Unary, Binary, Variable, Assign). -/
inductive Expr where
  | Literal (value : Value)
  | Grouping (expression : Expr)
  | Unary (operator : Token) (right : Expr)
  | Binary (left : Expr) (operator : Token) (right : Expr)
  | Variable (name : Token)
  | Assign (name : Token) (value : Expr)
deriving DecidableEq, Repr

/-- Statement nodes. Expression, Print and Var are from src/unnamed/
part_000; the If node is referenced by the parser (src/unnamed/part_001:
`new If(condition, thenBranch, elseBranch, elseIfBlocks)`) but its class
is absent from src. Modelled from the spec: an If statement holds a
condition, a then-branch statement sequence, an optional else-branch,
and an ordered sequence of (condition, branch) pairs for else-ifs. -/
inductive Stmt where
  | Expression (expression : Expr)
  | Print (expression : Expr)
  | Var (name : Token) (initializer : Option Expr)
  | If (condition : Expr) (thenBranch : List Stmt)
       (elseBranch : Option (List Stmt)) (elseIfs : List (Expr × List Stmt))
deriving Repr

/-- Interpreter.isTruthy from src/jakselv2/error.ts: null is falsy,
booleans are themselves, every other value is truthy. -/
def isTruthy (v : Value) : Bool :=
  match v with
  | .vnull => false
  | .jbool b => b
  | _ => true

/-- JS strict equality `===` on runtime values: equal only as same-kind
values, with no coercion between kinds; null equals only null. This is
Interpreter.isEqual of src/jakselv2/error.ts (`return a === b`). -/
def strictEq (a b : Value) : Bool :=
  match a, b with
  | .num p, .num q => p = q
  | .str s, .str t => s = t
  | .jbool p, .jbool q => p = q
  | .vnull, .vnull => true
  | _, _ => false

/-- isEqual of the older Interpreter in src/lib/jaksel.ts (lines
713-717): special-cases null on the left, otherwise `===`. -/
def libIsEqual (a b : Value) : Bool :=
  match a with
  | .vnull => match b with
      | .vnull => true
      | _ => false
  | _ => strictEq a b

/-- The BANG_EQUAL and EQUAL_EQUAL cases of visitBinary in the older
Interpreter of src/lib/jaksel.ts (lines 690-693): both return
`!this.#isEqual(left, right)` — EQUAL_EQUAL is negated exactly like
BANG_EQUAL. Other operators are out of this model. -/
def libVisitBinaryEquality (op : TokenType) (left right : Value) :
    Option Value :=
  match op with
  | .BANG_EQUAL => some (.jbool (!(libIsEqual left right)))
  | .EQUAL_EQUAL => some (.jbool (!(libIsEqual left right)))
  | _ => none

/-- Expression evaluation: Interpreter.visitLiteral/visitGrouping/
visitUnary/visitBinary/visitVariable/visitAssign from src/jakselv2/
error.ts. The environment is threaded because Assign mutates it; a
RuntimeError aborts evaluation. In the source, MINUS/SLASH/STAR first
run checkNumberOperands and then apply parseFloat to each operand;
parseFloat of a number is that number, so the arithmetic is applied
directly here. An operator case the switch does not handle falls
through to `return null`. -/
def evalE (e : Expr) (env : Environment) :
    Except RuntimeError (Value × Environment) :=
  match e with
  | .Literal v => .ok (v, env)
  | .Grouping inner => evalE inner env
  | .Unary op right =>
      match evalE right env with
      | .error er => .error er
      | .ok (rv, env1) =>
          match op.type with
          | .BANG => .ok (.jbool (!(isTruthy rv)), env1)
          | .MINUS =>
              match rv with
              | .num q => .ok (.num (-q), env1)
              | _ => .error ⟨op, "Operand must be a number."⟩
          | _ => .ok (.vnull, env1)
  | .Binary left op right =>
      match evalE left env with
      | .error er => .error er
      | .ok (lv, env1) =>
          match evalE right env1 with
          | .error er => .error er
          | .ok (rv, env2) =>
              match op.type with
              | .GREATER =>
                  match lv, rv with
                  | .num p, .num q => .ok (.jbool (q < p), env2)
                  | _, _ => .error ⟨op, "Operands must be a number."⟩
              | .GREATER_EQUAL =>
                  match lv, rv with
                  | .num p, .num q => .ok (.jbool (q ≤ p), env2)
                  | _, _ => .error ⟨op, "Operands must be a number."⟩
              | .LESS =>
                  match lv, rv with
                  | .num p, .num q => .ok (.jbool (p < q), env2)
                  | _, _ => .error ⟨op, "Operands must be a number."⟩
              | .LESS_EQUAL =>
                  match lv, rv with
                  | .num p, .num q => .ok (.jbool (p ≤ q), env2)
                  | _, _ => .error ⟨op, "Operands must be a number."⟩
              | .BANG_EQUAL => .ok (.jbool (!(strictEq lv rv)), env2)
              | .EQUAL_EQUAL => .ok (.jbool (strictEq lv rv), env2)
              | .MINUS =>
                  match lv, rv with
                  | .num p, .num q => .ok (.num (p - q), env2)
                  | _, _ => .error ⟨op, "Operands must be a number."⟩
              | .SLASH =>
                  match lv, rv with
                  | .num p, .num q => .ok (.num (p / q), env2)
                  | _, _ => .error ⟨op, "Operands must be a number."⟩
              | .STAR =>
                  match lv, rv with
                  | .num p, .num q => .ok (.num (p * q), env2)
                  | _, _ => .error ⟨op, "Operands must be a number."⟩
              | .PLUS =>
                  match lv, rv with
                  | .num p, .num q => .ok (.num (p + q), env2)
                  | .str s, .str t => .ok (.str (s ++ t), env2)
                  | _, _ => .ok (.vnull, env2)
              | _ => .ok (.vnull, env2)
  | .Variable name =>
      match env.get name with
      | .ok v => .ok (v, env)
      | .error er => .error er
  | .Assign name vexpr =>
      match evalE vexpr env with
      | .error er => .error er
      | .ok (v, env1) =>
          match env1.assign name v with
          | (env2, none) => .ok (v, env2)
          | (_, some er) => .error er

/-- Interpreter state: the current environment and the values printed so
far (console.log output). -/
structure IState where
  env : Environment
  output : List Value
deriving Repr

/-- Leaving a block scope: resume with the enclosing environment (the
block environment was created with the current environment as its
enclosing reference, so after the block the enclosing one — with any
mutations that reached it — is current again). -/
def Environment.popScope (env : Environment) : Environment :=
  match env with
  | .mk _ (some e) => e
  | e => e

mutual
/-- Statement execution: visitExpression, visitPrint (console.log models
as appending to the output list), visitVar from src/jakselv2/error.ts.
The If case is modelled from the spec (section 4.5): evaluate the
condition; if truthy run the then-branch in a new nested scope;
otherwise try each else-if condition in order, running the first truthy
branch in a new nested scope; otherwise the else branch, if present, in
a new nested scope. The fuel argument is a modelling artifact for
termination; `none` means it ran out (every claim below either supplies
enough fuel for its concrete statements or quantifies over the fuel). -/
def execStmt : ℕ → Stmt → IState → Option (Except RuntimeError IState)
  | 0, _, _ => none
  | f + 1, s, st =>
    match s with
    | .Expression e =>
        match evalE e st.env with
        | .error er => some (.error er)
        | .ok (_, env1) => some (.ok ⟨env1, st.output⟩)
    | .Print e =>
        match evalE e st.env with
        | .error er => some (.error er)
        | .ok (v, env1) => some (.ok ⟨env1, st.output ++ [v]⟩)
    | .Var name init =>
        match init with
        | none => some (.ok ⟨st.env.define name.lexeme .vnull, st.output⟩)
        | some e =>
            match evalE e st.env with
            | .error er => some (.error er)
            | .ok (v, env1) => some (.ok ⟨env1.define name.lexeme v, st.output⟩)
    | .If cond thenB elseB elseIfs =>
        match evalE cond st.env with
        | .error er => some (.error er)
        | .ok (cv, env1) =>
            if isTruthy cv then execBlock f thenB ⟨env1, st.output⟩
            else execElseIfs f elseIfs elseB ⟨env1, st.output⟩

/-- Run a branch in a new nested scope and pop it afterwards. -/
def execBlock : ℕ → List Stmt → IState → Option (Except RuntimeError IState)
  | 0, _, _ => none
  | f + 1, stmts, st =>
    match execStmts f stmts ⟨.mk [] (some st.env), st.output⟩ with
    | some (.error er) => some (.error er)
    | some (.ok st1) => some (.ok ⟨st1.env.popScope, st1.output⟩)
    | none => none

/-- Execute statements in order; the first runtime error aborts. -/
def execStmts : ℕ → List Stmt → IState → Option (Except RuntimeError IState)
  | 0, _, _ => none
  | f + 1, stmts, st =>
    match stmts with
    | [] => some (.ok st)
    | s :: rest =>
        match execStmt f s st with
        | some (.error er) => some (.error er)
        | some (.ok st1) => execStmts f rest st1
        | none => none

/-- Try the else-if branches in source order, then the else branch. -/
def execElseIfs : ℕ → List (Expr × List Stmt) → Option (List Stmt) → IState →
    Option (Except RuntimeError IState)
  | 0, _, _, _ => none
  | f + 1, branches, elseB, st =>
    match branches with
    | [] =>
        match elseB with
        | none => some (.ok st)
        | some b => execBlock f b st
    | (c, b) :: rest =>
        match evalE c st.env with
        | .error er => some (.error er)
        | .ok (cv, env1) =>
            if isTruthy cv then execBlock f b ⟨env1, st.output⟩
            else execElseIfs f rest elseB ⟨env1, st.output⟩
end

/-- Parse-time failure: a thrown ParseError (src/unnamed/part_001
`throw this.error(...)`), or fuel exhaustion (a modelling artifact; the
fuel bounds the number of recursion-into-subexpression and loop steps
the source parser may take). -/
inductive PErr where
  | parse
  | noFuel
deriving DecidableEq, Repr

/-- Parser state: the tokens not yet consumed and the parse errors
reported so far through ErrorReporter.error (token and message). The
source keeps an index `current` into the token array and only ever moves
it forward; the unconsumed suffix models it. -/
structure PState where
  rest : List Token
  errs : List (Token × String)
deriving DecidableEq, Repr

/-- The result of a parser routine: a value with the state after it, or
a thrown error with the state at throw time (reported errors survive the
throw, as the error reporter is a separate object in the source). -/
inductive PResult (α : Type) where
  | ok (val : α) (st : PState)
  | err (e : PErr) (st : PState)
deriving DecidableEq, Repr

/-- A stand-in token for peeking past the end of the token array; the
scanner guarantees the array ends in EOF, so this is never reached on
scanner output. -/
def eofStandin : Token := ⟨.EOF, "", .vnull, 0, 0⟩

/-- Parser.peek. -/
def peekT (st : PState) : Token := st.rest.headD eofStandin

/-- Parser.isAtEnd: peek().type == EOF. -/
def isAtEndP (st : PState) : Bool := (peekT st).type = .EOF

/-- Parser.check: false at end of input, otherwise compares the peeked
token's type. -/
def checkT (t : TokenType) (st : PState) : Bool :=
  if isAtEndP st then false else (peekT st).type = t

/-- Parser.advance: consume one token unless at end; returns the token
the cursor moved past. -/
def advanceT (st : PState) : Token × PState :=
  match st.rest with
  | [] => (eofStandin, st)
  | t :: rest => if t.type = .EOF then (t, st) else (t, ⟨rest, st.errs⟩)

/-- Parser.match for one token type: on success the consumed token and
the new state. -/
def matchT (t : TokenType) (st : PState) : Option (Token × PState) :=
  if checkT t st then some (advanceT st) else none

/-- Parser.error: report through ErrorReporter.error and hand back a
ParseError for the caller to throw (or not: Parser.assignment reports
without throwing). -/
def reportP (st : PState) (tok : Token) (msg : String) : PState :=
  ⟨st.rest, st.errs ++ [(tok, msg)]⟩

/-- Parser.consume with a single required kind: advance on a match,
otherwise report at the peeked token and throw. -/
def consumeT (t : TokenType) (msg : String) (st : PState) : PResult Token :=
  if checkT t st then
    let a := advanceT st
    .ok a.1 a.2
  else .err .parse (reportP st (peekT st) msg)

/-- Parser.consume with a set of accepted kinds (statement terminators):
EOF is accepted via the isAtEnd special case, otherwise the first kind
that checks wins; the consumed token is discarded by all callers. -/
def consumeAnyT (ts : List TokenType) (msg : String) (st : PState) :
    PResult Token :=
  match ts.find? (fun t => (isAtEndP st && t = .EOF) || checkT t st) with
  | some _ =>
      let a := advanceT st
      .ok a.1 a.2
  | none => .err .parse (reportP st (peekT st) msg)

mutual

/-- Parser.expression: expression → assignment. Every parser routine
checks its fuel on entry and hands the rest to its callees, so the
recursion is structural in the fuel; fuel exhaustion is the noFuel
artifact. -/
def expressionP : ℕ → PState → PResult Expr
  | 0, st => .err .noFuel st
  | f + 1, st => assignmentP f st
termination_by structural f _ => f

/-- Parser.assignment: parse the left side as an equality; when `itu`
follows, recurse (right associative), then only a Variable left side
becomes an Assign node — anything else reports "Invalid assignment
target." at the operator WITHOUT throwing and yields the left side. -/
def assignmentP : ℕ → PState → PResult Expr
  | 0, st => .err .noFuel st
  | f + 1, st =>
    match equalityP f st with
    | .err e st1 => .err e st1
    | .ok expr st1 =>
        match matchT .ITU st1 with
        | none => .ok expr st1
        | some (equals, st2) =>
            match assignmentP f st2 with
            | .err e st3 => .err e st3
            | .ok value st3 =>
                match expr with
                | .Variable name => .ok (.Assign name value) st3
                | _ => .ok expr (reportP st3 equals "Invalid assignment target.")
termination_by structural f _ => f

/-- Parser.equality: comparison (("!=" | "==") comparison)*. -/
def equalityP : ℕ → PState → PResult Expr
  | 0, st => .err .noFuel st
  | f + 1, st =>
    match comparisonP f st with
    | .err e st1 => .err e st1
    | .ok expr st1 => equalityLoop f expr st1
termination_by structural f _ => f

/-- The while loop of Parser.equality. -/
def equalityLoop : ℕ → Expr → PState → PResult Expr
  | f, expr, st =>
    if checkT .BANG_EQUAL st || checkT .EQUAL_EQUAL st then
      match f with
      | 0 => .err .noFuel st
      | g + 1 =>
          let a := advanceT st
          match comparisonP g a.2 with
          | .err e st2 => .err e st2
          | .ok right st2 => equalityLoop g (.Binary expr a.1 right) st2
    else .ok expr st
termination_by structural f _ _ => f

/-- Parser.comparison: term ((">" | ">=" | "<" | "<=") term)*. -/
def comparisonP : ℕ → PState → PResult Expr
  | 0, st => .err .noFuel st
  | f + 1, st =>
    match termP f st with
    | .err e st1 => .err e st1
    | .ok expr st1 => comparisonLoop f expr st1
termination_by structural f _ => f

/-- The while loop of Parser.comparison. -/
def comparisonLoop : ℕ → Expr → PState → PResult Expr
  | f, expr, st =>
    if checkT .GREATER st || checkT .GREATER_EQUAL st || checkT .LESS st ||
        checkT .LESS_EQUAL st then
      match f with
      | 0 => .err .noFuel st
      | g + 1 =>
          let a := advanceT st
          match termP g a.2 with
          | .err e st2 => .err e st2
          | .ok right st2 => comparisonLoop g (.Binary expr a.1 right) st2
    else .ok expr st
termination_by structural f _ _ => f

/-- Parser.term: factor (("-" | "+") factor)*. -/
def termP : ℕ → PState → PResult Expr
  | 0, st => .err .noFuel st
  | f + 1, st =>
    match factorP f st with
    | .err e st1 => .err e st1
    | .ok expr st1 => termLoop f expr st1
termination_by structural f _ => f

/-- The while loop of Parser.term. -/
def termLoop : ℕ → Expr → PState → PResult Expr
  | f, expr, st =>
    if checkT .MINUS st || checkT .PLUS st then
      match f with
      | 0 => .err .noFuel st
      | g + 1 =>
          let a := advanceT st
          match factorP g a.2 with
          | .err e st2 => .err e st2
          | .ok right st2 => termLoop g (.Binary expr a.1 right) st2
    else .ok expr st
termination_by structural f _ _ => f

/-- Parser.factor: unary (("*" | "/") unary)*. -/
def factorP : ℕ → PState → PResult Expr
  | 0, st => .err .noFuel st
  | f + 1, st =>
    match unaryP f st with
    | .err e st1 => .err e st1
    | .ok expr st1 => factorLoop f expr st1
termination_by structural f _ => f

/-- The while loop of Parser.factor. -/
def factorLoop : ℕ → Expr → PState → PResult Expr
  | f, expr, st =>
    if checkT .STAR st || checkT .SLASH st then
      match f with
      | 0 => .err .noFuel st
      | g + 1 =>
          let a := advanceT st
          match unaryP g a.2 with
          | .err e st2 => .err e st2
          | .ok right st2 => factorLoop g (.Binary expr a.1 right) st2
    else .ok expr st
termination_by structural f _ _ => f

/-- Parser.unary: ("!" | "-") unary | primary. -/
def unaryP : ℕ → PState → PResult Expr
  | 0, st => .err .noFuel st
  | f + 1, st =>
    if checkT .BANG st || checkT .MINUS st then
      let a := advanceT st
      match unaryP f a.2 with
      | .err e st2 => .err e st2
      | .ok right st2 => .ok (.Unary a.1 right) st2
    else primaryP f st
termination_by structural f _ => f

/-- Parser.primary: the literal keywords, NUMBER/STRING literals,
IDENTIFIER, a parenthesized expression, otherwise report and throw
"Expect expression." at the peeked token. -/
def primaryP : ℕ → PState → PResult Expr
  | 0, st => .err .noFuel st
  | f + 1, st =>
    match matchT .FALSE st with
    | some (_, st1) => .ok (.Literal (.jbool false)) st1
    | none =>
    match matchT .TRUE st with
    | some (_, st1) => .ok (.Literal (.jbool true)) st1
    | none =>
    match matchT .NIL st with
    | some (_, st1) => .ok (.Literal .vnull) st1
    | none =>
    match matchT .NUMBER st with
    | some (t, st1) => .ok (.Literal t.literal) st1
    | none =>
    match matchT .STRING st with
    | some (t, st1) => .ok (.Literal t.literal) st1
    | none =>
    match matchT .IDENTIFIER st with
    | some (t, st1) => .ok (.Variable t) st1
    | none =>
    match matchT .LEFT_PAREN st with
    | some (_, st1) =>
        (match expressionP f st1 with
         | .err e st2 => .err e st2
         | .ok inner st2 =>
             match consumeT .RIGHT_PAREN "Expect \')\' after expression." st2 with
             | .err e st3 => .err e st3
             | .ok _ st3 => .ok (.Grouping inner) st3)
    | none => .err .parse (reportP st (peekT st) "Expect expression.")
termination_by structural f _ => f
end

/-- Parser.synchronize: discard tokens until a statement-boundary token
(NEWLINE, FOMO, SPILL, SO, KALO) or end of input; the boundary token is
not consumed. -/
def syncGo (ts : List Token) : List Token :=
  match ts with
  | [] => []
  | t :: rest =>
      if t.type = .EOF then t :: rest
      else if t.type = .NEWLINE || t.type = .FOMO || t.type = .SPILL ||
          t.type = .SO || t.type = .KALO then t :: rest
      else syncGo rest

/-- Parser.synchronize on the parser state. -/
def synchronize (st : PState) : PState := ⟨syncGo st.rest, st.errs⟩

/-- Parser.spillStatement: expression, then newline-or-EOF terminator. -/
def spillStatementP (f : ℕ) (st : PState) : PResult Stmt :=
  match expressionP f st with
  | .err e st1 => .err e st1
  | .ok value st1 =>
      match consumeAnyT [.NEWLINE, .EOF] "Expect newline after value." st1 with
      | .err e st2 => .err e st2
      | .ok _ st2 => .ok (.Print value) st2

/-- Parser.expressionStatement: expression, then newline-or-EOF
terminator. -/
def expressionStatementP (f : ℕ) (st : PState) : PResult Stmt :=
  match expressionP f st with
  | .err e st1 => .err e st1
  | .ok expr st1 =>
      match consumeAnyT [.NEWLINE, .EOF] "Expect newline after expression." st1 with
      | .err e st2 => .err e st2
      | .ok _ st2 => .ok (.Expression expr) st2

mutual

/-- Parser.statement: if-statement after `kalo`, print statement after
`spill`, otherwise an expression statement. -/
def statementP : ℕ → PState → PResult Stmt
  | 0, st => .err .noFuel st
  | f + 1, st =>
    match matchT .KALO st with
    | some (_, st1) => ifStatementP f st1
    | none =>
    match matchT .SPILL st with
    | some (_, st1) => spillStatementP f st1
    | none => expressionStatementP f st
termination_by structural f _ => f

/-- Parser.ifStatement: condition, then-block, else-if blocks after
`perhaps`, optional else block after `kalogak`, closed by `udahan`. -/
def ifStatementP : ℕ → PState → PResult Stmt
  | 0, st => .err .noFuel st
  | f + 1, st =>
    match expressionP f st with
    | .err e st1 => .err e st1
    | .ok condition st1 =>
        match openblockP f st1 with
        | .err e st2 => .err e st2
        | .ok thenBranch st2 =>
            match perhapsLoop f [] st2 with
            | .err e st3 => .err e st3
            | .ok elseIfs st3 =>
                match matchT .KALOGAK st3 with
                | some (_, st4) =>
                    (match openblockP f st4 with
                     | .err e st5 => .err e st5
                     | .ok elseBranch st5 =>
                         match consumeT .UDAHAN "Expect \'udahan\' after if statement." st5 with
                         | .err e st6 => .err e st6
                         | .ok _ st6 =>
                             .ok (.If condition thenBranch (some elseBranch) elseIfs) st6)
                | none =>
                    match consumeT .UDAHAN "Expect \'udahan\' after if statement." st3 with
                    | .err e st4 => .err e st4
                    | .ok _ st4 => .ok (.If condition thenBranch none elseIfs) st4
termination_by structural f _ => f

/-- The while loop of Parser.ifStatement gathering (condition, branch)
pairs for each `perhaps`. -/
def perhapsLoop : ℕ → List (Expr × List Stmt) → PState →
    PResult (List (Expr × List Stmt))
  | f, acc, st =>
    match matchT .PERHAPS st with
    | none => .ok acc st
    | some (_, st1) =>
        match f with
        | 0 => .err .noFuel st1
        | g + 1 =>
            match expressionP g st1 with
            | .err e st2 => .err e st2
            | .ok c st2 =>
                match openblockP g st2 with
                | .err e st3 => .err e st3
                | .ok b st3 => perhapsLoop g (acc ++ [(c, b)]) st3
termination_by structural f _ _ => f

/-- Parser.openblock: a newline, then statements until one of the
closing keywords (udahan/perhaps/kalogak) or end of input; blank lines
are skipped. -/
def openblockP : ℕ → PState → PResult (List Stmt)
  | 0, st => .err .noFuel st
  | f + 1, st =>
    match consumeT .NEWLINE "Expect newline before block." st with
    | .err e st1 => .err e st1
    | .ok _ st1 => openblockLoop f [] st1
termination_by structural f _ => f

/-- The while loop of Parser.openblock. -/
def openblockLoop : ℕ → List Stmt → PState → PResult (List Stmt)
  | f, acc, st =>
    if isAtEndP st || checkT .UDAHAN st || checkT .PERHAPS st ||
        checkT .KALOGAK st then .ok acc st
    else
      match matchT .NEWLINE st with
      | some (_, st1) =>
          (match f with
           | 0 => .err .noFuel st1
           | g + 1 => openblockLoop g acc st1)
      | none =>
          match f with
          | 0 => .err .noFuel st
          | g + 1 =>
              match statementP g st with
              | .err e st1 => .err e st1
              | .ok s st1 => openblockLoop g (acc ++ [s]) st1
termination_by structural f _ _ => f
end


/-- Parser.varDeclaration: identifier, optional `itu` initializer,
required newline. -/
def varDeclarationP (f : ℕ) (st : PState) : PResult Stmt :=
  match consumeT .IDENTIFIER "Expect variable name." st with
  | .err e st1 => .err e st1
  | .ok name st1 =>
      match matchT .ITU st1 with
      | some (_, st2) =>
          (match expressionP f st2 with
           | .err e st3 => .err e st3
           | .ok init st3 =>
               match consumeT .NEWLINE "Expect newline after variable declaration." st3 with
               | .err e st4 => .err e st4
               | .ok _ st4 => .ok (.Var name (some init)) st4)
      | none =>
          match consumeT .NEWLINE "Expect newline after variable declaration." st1 with
          | .err e st2 => .err e st2
          | .ok _ st2 => .ok (.Var name none) st2

/-- Parser.declaration: `literally` begins a var declaration, anything
else a statement; a thrown ParseError is caught here, synchronization
runs, and the failed statement becomes a null entry. The noFuel artifact
is not a ParseError and passes through (it is not caught, exactly as a
non-ParseError exception would be rethrown by the source catch). -/
def declarationP (f : ℕ) (st : PState) : PResult (Option Stmt) :=
  match
    (match matchT .LITERALLY st with
     | some (_, st1) => varDeclarationP f st1
     | none => statementP f st) with
  | .ok s st1 => .ok (some s) st1
  | .err .parse st1 => .ok none (synchronize st1)
  | .err .noFuel st1 => .err .noFuel st1

/-- The while loop of Parser.parse: skip blank lines, otherwise gather
declarations (null entries for failed ones). -/
def parseLoop (f : ℕ) (st : PState) (acc : List (Option Stmt)) :
    PResult (List (Option Stmt)) :=
  match f with
  | 0 => .err .noFuel st
  | f' + 1 =>
      if isAtEndP st then .ok acc st
      else
        match matchT .NEWLINE st with
        | some (_, st1) => parseLoop f' st1 acc
        | none =>
            match declarationP f' st with
            | .err e st1 => .err e st1
            | .ok d st1 => parseLoop f' st1 (acc ++ [d])

/-- Parser.parse from src/unnamed/part_001. -/
def parseP (f : ℕ) (tokens : List Token) : PResult (List (Option Stmt)) :=
  parseLoop f ⟨tokens, []⟩ []

/-- Interpreter.intepret (the source spelling) from src/jakselv2/
error.ts: execute the statements in order inside one try; any thrown
error aborts the rest of the run and is handed to the error reporter.
A null statement entry makes the source call `null.accept(...)`, which
throws a host TypeError; the same catch receives it, modelled here as a
RuntimeError with that message. Returns the final state, the error if
one was caught, or none in the fuel-out artifact case. -/
def intepret (f : ℕ) (stmts : List (Option Stmt)) (st : IState) :
    Option (IState × Option RuntimeError) :=
  match stmts with
  | [] => some (st, none)
  | none :: _ =>
      some (st, some ⟨eofStandin, "TypeError: Cannot read properties of null."⟩)
  | some s :: rest =>
      match execStmt f s st with
      | none => none
      | some (.error er) => some (st, some er)
      | some (.ok st1) => intepret f rest st1

/-- The two flags of the error reporter (ConsoleErrorReporter in
src/jakselv2/error.ts) that outlive one run call. -/
structure ProcState where
  hadError : Bool
  hadRuntimeError : Bool
deriving DecidableEq, Repr

/-- Jaksel.run from src/jakselv2/jaksel.ts: scan, parse, then construct
a NEW Interpreter (whose constructor creates a fresh empty global
Environment) and interpret. Scan and parse errors set hadError; a caught
runtime error sets hadRuntimeError. The interpreter runs even when
earlier stages reported errors (the hadError check in the source comes
after intepret). Returns the updated flags and the values printed by
this run; `none` is the fuel-out artifact. -/
def run (source : String) (ps : ProcState) :
    Option (ProcState × List Value) :=
  let scanned := scanTokens source.data
  let ps1 : ProcState :=
    if scanned.2.isEmpty then ps else { ps with hadError := true }
  let fuel := source.length + 32
  match parseP fuel scanned.1 with
  | .err _ _ => none
  | .ok stmts pst =>
      let ps2 : ProcState :=
        if pst.errs.isEmpty then ps1 else { ps1 with hadError := true }
      match intepret fuel stmts ⟨.mk [] none, []⟩ with
      | none => none
      | some (ist, none) => some (ps2, ist.output)
      | some (ist, some _) =>
          some ({ ps2 with hadRuntimeError := true }, ist.output)

/-- An identifier token for x, as the scanner would produce it. -/
def xTok : Token := ⟨.IDENTIFIER, "x", .vnull, 1, 1⟩

/-- A PLUS operator token. -/
def plusTok : Token := ⟨.PLUS, "+", .vnull, 1, 1⟩

/-- An EQUAL_EQUAL operator token. -/
def eqeqTok : Token := ⟨.EQUAL_EQUAL, "==", .vnull, 1, 1⟩

/-- A BANG_EQUAL operator token. -/
def bangeqTok : Token := ⟨.BANG_EQUAL, "!=", .vnull, 1, 1⟩

/-- C1: Environment.assign on the chain `{} -> {x: 1}` (x bound only in
the ENCLOSING scope). The claim says assign mutates the nearest binding
and raises UndefinedVariable only when NO scope defines the name, so
here it should succeed silently. The code does mutate the outer binding
to 2, but — missing the `return` after the recursive call — it still
falls through and throws UndefinedVariable. -/
theorem c1_assign_enclosing_mutates_but_throws :
    Environment.assign (.mk [] (some (.mk [("x", .num 1)] none))) xTok (.num 2) =
      (.mk [] (some (.mk [("x", .num 2)] none)),
        some ⟨xTok, "Undefined variable \'x\'."⟩) := by
  rfl

/-- C2: binary PLUS in the jakselv2 Interpreter (src/jakselv2/error.ts
visitBinary). Number plus number adds and string plus string
concatenates as the claim says, but a mixed pair — here `1 + "a"` —
falls out of the switch and silently evaluates to null: no runtime type
error is raised, contradicting the claim. -/
theorem c2_plus_mixed_returns_null_not_error :
    (∀ (p q : ℚ) (env : Environment),
      evalE (.Binary (.Literal (.num p)) plusTok (.Literal (.num q))) env =
        .ok (.num (p + q), env)) ∧
    (∀ (s t : String) (env : Environment),
      evalE (.Binary (.Literal (.str s)) plusTok (.Literal (.str t))) env =
        .ok (.str (s ++ t), env)) ∧
    (∀ env : Environment,
      evalE (.Binary (.Literal (.num 1)) plusTok (.Literal (.str "a"))) env =
        .ok (.vnull, env)) :=
  ⟨fun _ _ _ => rfl, fun _ _ _ => rfl, fun _ => rfl⟩

/-- C3: equality. The jakselv2 Interpreter (isEqual is `===`) satisfies
the claim: `==` decides same-kind value equality with no coercion and
`!=` is its exact negation. The older Interpreter in src/lib/jaksel.ts,
cited by the claim, does NOT: its EQUAL_EQUAL case returns
`!isEqual(left, right)`, so `1 == 1` evaluates to false there. -/
theorem c3_equality_v2_correct_lib_inverted :
    (∀ a b : Value, strictEq a b = decide (a = b)) ∧
    (∀ (a b : Value) (env : Environment),
      evalE (.Binary (.Literal a) eqeqTok (.Literal b)) env =
        .ok (.jbool (decide (a = b)), env) ∧
      evalE (.Binary (.Literal a) bangeqTok (.Literal b)) env =
        .ok (.jbool (!(decide (a = b))), env)) ∧
    libVisitBinaryEquality .EQUAL_EQUAL (.num 1) (.num 1) =
      some (.jbool false) := by
  have hs : ∀ a b : Value, strictEq a b = decide (a = b) := by
    intro a b
    cases a <;> cases b <;> simp [strictEq]
  refine ⟨hs, fun a b env => ⟨?_, ?_⟩, by rfl⟩
  · show Except.ok (Value.jbool (strictEq a b), env) = _
    rw [hs]
  · show Except.ok (Value.jbool (!(strictEq a b)), env) = _
    rw [hs]

/-- C4: the interactive-mode persistence the spec expects does not hold:
Jaksel.run constructs a NEW Interpreter — hence a fresh empty global
Environment — on every call, so a variable defined by one input line is
gone on the next. Running `literally x itu 10` as one line succeeds,
then running `spill x` as the next line (with the flags the previous
run left) raises an undefined-variable runtime error instead of
printing 10. -/
theorem c4_repl_environment_not_persistent :
    run "literally x itu 10\n" ⟨false, false⟩ = some (⟨false, false⟩, []) ∧
    run "spill x\n" ⟨false, false⟩ = some (⟨false, true⟩, []) := by
  constructor <;> decide

/-- The concrete source string of C8. -/
def c8Source : String := "(),.-+*/!!===>=<==\n><\t# c\r\n \"hi\""

/-- C8: scanning the claimed source yields exactly the claimed kind
sequence: comments and whitespace produce no tokens, the two-character
operators win by one-character lookahead, and the scan ends in EOF. -/
theorem c8_scan_symbols :
    ((scanTokens c8Source.data).1.map Token.type) =
      [.LEFT_PAREN, .RIGHT_PAREN, .COMMA, .DOT, .MINUS, .PLUS, .STAR,
       .SLASH, .BANG, .BANG_EQUAL, .EQUAL_EQUAL, .GREATER_EQUAL,
       .LESS_EQUAL, .EQUAL, .NEWLINE, .GREATER, .LESS, .NEWLINE,
       .STRING, .EOF] := by
  decide

theorem lookup_val_mem {α β : Type} [BEq α] (l : List (α × β)) (k : α)
    (v : β) (h : l.lookup k = some v) : v ∈ l.map Prod.snd := by
  induction l with
  | nil => simp [List.lookup] at h
  | cons p rest ih =>
      rw [List.lookup] at h
      cases hk : (k == p.1) with
      | true =>
          rw [hk] at h
          simp at h
          simp [← h]
      | false =>
          rw [hk] at h
          simp [ih h]

theorem keywordType_ne_eof (s : String) : keywordType s ≠ .EOF := by
  unfold keywordType
  cases hl : Keywords.lookup s with
  | none => simp
  | some t =>
      simp only [Option.getD_some]
      have hm := lookup_val_mem Keywords s t hl
      have : ∀ v ∈ Keywords.map Prod.snd, v ≠ TokenType.EOF := by decide
      exact this t hm

theorem twoCharOp_tok_ne_eof (one two : TokenType) (lex1 : String)
    (rest : List Char) (line : ℕ) (col1 : ℤ) (t : Token)
    (h1 : one ≠ .EOF) (h2 : two ≠ .EOF)
    (h : (twoCharOp one two lex1 rest line col1).tok = some t) :
    t.type ≠ .EOF := by
  unfold twoCharOp at h
  split at h
  · simp at h
    rw [← h]
    exact h2
  · simp at h
    rw [← h]
    exact h1

theorem strLex_tok_ne_eof (rest : List Char) (line : ℕ) (col1 : ℤ)
    (t : Token) (h : (strLex rest line col1).tok = some t) :
    t.type ≠ .EOF := by
  unfold strLex at h
  dsimp only at h
  split at h
  · simp at h
  · simp at h
    rw [← h]
    simp

theorem numLex_tok_ne_eof (c : Char) (rest : List Char) (line : ℕ)
    (col1 : ℤ) (t : Token) (h : (numLex c rest line col1).tok = some t) :
    t.type ≠ .EOF := by
  unfold numLex at h
  dsimp only at h
  split at h
  · split at h <;> (simp at h; rw [← h]; simp)
  · simp at h
    rw [← h]
    simp

theorem identLex_tok_ne_eof (c : Char) (rest : List Char) (line : ℕ)
    (col1 : ℤ) (t : Token) (h : (identLex c rest line col1).tok = some t) :
    t.type ≠ .EOF := by
  unfold identLex at h
  dsimp only at h
  simp at h
  rw [← h]
  exact keywordType_ne_eof _

theorem scanToken_tok_ne_eof (c : Char) (rest : List Char) (line : ℕ)
    (col : ℤ) (t : Token)
    (h : (scanToken c rest line col).tok = some t) : t.type ≠ .EOF := by
  unfold scanToken at h
  dsimp only at h
  split at h
  all_goals try split_ifs at h
  all_goals first
    | (simp at h; rw [← h]; simp)
    | exact twoCharOp_tok_ne_eof _ _ _ _ _ _ _ (by decide) (by decide) h
    | exact strLex_tok_ne_eof _ _ _ _ h
    | exact numLex_tok_ne_eof _ _ _ _ _ h
    | exact identLex_tok_ne_eof _ _ _ _ _ h
    | simp at h

theorem scanLoop_no_eof (n : ℕ) :
    ∀ (cs : List Char) (line : ℕ) (col : ℤ) (t : Token),
      t ∈ (scanLoop n cs line col).1 → t.type ≠ .EOF := by
  induction n with
  | zero =>
      intro cs line col t ht
      cases cs <;> simp [scanLoop] at ht
  | succ m ih =>
      intro cs line col t ht
      cases cs with
      | nil => simp [scanLoop] at ht
      | cons c rest =>
          simp only [scanLoop, List.mem_append] at ht
          rcases ht with ht | ht
          · cases hto : (scanToken c rest line col).tok with
            | none => rw [hto] at ht; simp at ht
            | some t0 =>
                rw [hto] at ht
                simp at ht
                subst ht
                exact scanToken_tok_ne_eof _ _ _ _ _ hto
          · exact ih _ _ _ _ ht

/-- C7: scanning any input terminates (scanTokens is a total function
whose fuel provably suffices, see scanLoop_fuel_sufficient) and produces
a token sequence whose final element is an EOF token, and no earlier
token is an EOF: invalid characters only add diagnostics, never stop
the scan. -/
theorem c7_scan_ends_in_unique_eof (cs : List Char) :
    ∃ front last,
      (scanTokens cs).1 = front ++ [last] ∧ last.type = .EOF ∧
      ∀ t ∈ front, t.type ≠ .EOF := by
  refine ⟨(scanLoop cs.length cs 1 1).1, _, rfl, rfl, ?_⟩
  intro t ht
  exact scanLoop_no_eof _ _ _ _ _ ht

theorem declarationP_fomo (tf te : Token) (htf : tf.type = .FOMO)
    (_hte : te.type = .EOF) :
    ∀ (f : ℕ) (errs : List (Token × String)),
      declarationP f ⟨[tf, te], errs⟩ = .err .noFuel ⟨[tf, te], errs⟩ ∨
      declarationP f ⟨[tf, te], errs⟩ =
        .ok none ⟨[tf, te], errs ++ [(tf, "Expect expression.")]⟩ := by
  intro f errs
  rcases Nat.lt_or_ge f 9 with hf | hf
  · interval_cases f
    all_goals
      (left
       simp [declarationP, statementP, expressionStatementP, expressionP,
         assignmentP, equalityP, comparisonP, termP, factorP, unaryP,
         primaryP, matchT, checkT, isAtEndP, peekT, advanceT, consumeAnyT,
         reportP, synchronize, syncGo, htf])
  · obtain ⟨j, rfl⟩ : ∃ j, f = j + 9 := ⟨f - 9, by omega⟩
    right
    simp [declarationP, statementP, expressionStatementP, expressionP,
      assignmentP, equalityP, comparisonP, termP, factorP, unaryP,
      primaryP, matchT, checkT, isAtEndP, peekT, advanceT, consumeAnyT,
      reportP, synchronize, syncGo, htf]

theorem parseLoop_fomo_diverges (tf te : Token) (htf : tf.type = .FOMO)
    (hte : te.type = .EOF) :
    ∀ (f : ℕ) (errs : List (Token × String)) (acc : List (Option Stmt)),
      ∃ st', parseLoop f ⟨[tf, te], errs⟩ acc = .err .noFuel st' := by
  intro f
  induction f with
  | zero => exact fun errs acc => ⟨_, rfl⟩
  | succ g ih =>
      intro errs acc
      have hend : isAtEndP ⟨[tf, te], errs⟩ = false := by
        simp [isAtEndP, peekT, htf]
      have hnl : matchT .NEWLINE ⟨[tf, te], errs⟩ = none := by
        simp [matchT, checkT, isAtEndP, peekT, htf]
      rcases declarationP_fomo tf te htf hte g errs with hd | hd
      · exact ⟨⟨[tf, te], errs⟩, by simp [parseLoop, hend, hnl, hd]⟩
      · rcases ih (errs ++ [(tf, "Expect expression.")]) (acc ++ [none]) with ⟨st', hst'⟩
        exact ⟨st', by simp [parseLoop, hend, hnl, hd, hst']⟩

/-- C5: Parser.parse does NOT return for every token sequence: on the
single keyword `fomo` (a statement-start keyword in the synchronization
set that Parser.statement cannot begin parsing) the parse error thrown
by primary leaves the cursor where it was, synchronize stops immediately
at the same FOMO token, and the parse loop retries forever without
consuming anything. In the fuel model, every fuel amount is exhausted.
The same happens for `so`. -/
theorem c5_parse_diverges_on_fomo (f : ℕ) :
    ∃ st', parseP f (scanTokens "fomo".data).1 = .err .noFuel st' := by
  have h : (scanTokens "fomo".data).1 =
      [⟨.FOMO, "fomo", .vnull, 1, 1⟩, ⟨.EOF, "", .vnull, 1, 5⟩] := by decide
  rw [parseP, h]
  exact parseLoop_fomo_diverges _ _ rfl rfl f [] []

/-- Whether an expression node is a Variable (the `expr instanceof
Variable` check of Parser.assignment). -/
def isVariableE (e : Expr) : Bool :=
  match e with
  | .Variable _ => true
  | _ => false

/-- C9: when the left side of `itu` parsed but is not a Variable node,
Parser.assignment still parses the right-hand side, then reports exactly
one "Invalid assignment target." parse error carrying the `itu` token —
and returns the left-side expression normally instead of throwing, so
the enclosing statement is not aborted. -/
theorem c9_invalid_assignment_target (f : ℕ) (st st1 st2 st3 : PState)
    (e v : Expr) (equals : Token)
    (heq : equalityP f st = .ok e st1)
    (hvar : isVariableE e = false)
    (hitu : matchT .ITU st1 = some (equals, st2))
    (hrhs : assignmentP f st2 = .ok v st3) :
    assignmentP (f + 1) st =
      .ok e ⟨st3.rest, st3.errs ++ [(equals, "Invalid assignment target.")]⟩ := by
  rw [show f + 1 = f + 1 from rfl]
  simp only [assignmentP, heq, hitu, hrhs]
  cases e <;> simp_all [isVariableE, reportP]

/-- The token states of the concrete C9 run on source `1 itu 2`. -/
def c9St0 : PState := ⟨(scanTokens "1 itu 2\n".data).1, []⟩

/-- State after the left side `1` was parsed. -/
def c9St1 : PState :=
  ⟨[⟨.ITU, "itu", .vnull, 1, 3⟩, ⟨.NUMBER, "2", .num 2, 1, 7⟩,
    ⟨.NEWLINE, "\n", .vnull, 1, 8⟩, ⟨.EOF, "", .vnull, 2, 1⟩], []⟩

/-- State after `itu` was consumed. -/
def c9St2 : PState :=
  ⟨[⟨.NUMBER, "2", .num 2, 1, 7⟩, ⟨.NEWLINE, "\n", .vnull, 1, 8⟩,
    ⟨.EOF, "", .vnull, 2, 1⟩], []⟩

/-- State after the right-hand side `2` was parsed. -/
def c9St3 : PState :=
  ⟨[⟨.NEWLINE, "\n", .vnull, 1, 8⟩, ⟨.EOF, "", .vnull, 2, 1⟩], []⟩

/-- The `itu` token of the concrete C9 run. -/
def c9Itu : Token := ⟨.ITU, "itu", .vnull, 1, 3⟩

/-- Witness for C9 on the concrete source `1 itu 2` (a literal as
assignment target): instantiating the theorem at the scanner output. -/
theorem c9_invalid_assignment_target_witness :
    equalityP 9 c9St0 = .ok (.Literal (.num 1)) c9St1 ∧
    isVariableE (.Literal (.num 1)) = false ∧
    matchT .ITU c9St1 = some (c9Itu, c9St2) ∧
    assignmentP 9 c9St2 = .ok (.Literal (.num 2)) c9St3 ∧
    assignmentP 10 c9St0 =
      .ok (.Literal (.num 1))
        ⟨c9St3.rest, c9St3.errs ++ [(c9Itu, "Invalid assignment target.")]⟩ :=
  ⟨by decide, by decide, by decide, by decide,
    c9_invalid_assignment_target 9 c9St0 c9St1 c9St2 c9St3
      (.Literal (.num 1)) (.Literal (.num 2)) c9Itu (by decide) (by decide)
      (by decide) (by decide)⟩

/-- C10: executing an If whose truthy branch re-declares x runs the
branch in a new nested scope: the inner `literally x itu w` binds in the
block scope and shadows the outer x (the spill inside the branch prints
w, not the outer value), and when the block exits the interpreter is
back at exactly the environment it had before, so the outer binding of x
still holds its old value v. The condition may be any expression that
evaluates truthily without touching the environment; the branch here is
`literally x itu w` followed by `spill x`. -/
theorem c10_if_branch_scope_shadows_and_restores (f : ℕ) (env : Environment)
    (out : List Value) (xt : Token) (v w : Value) (cond : Expr) (cv : Value)
    (hcond : evalE cond env = .ok (cv, env))
    (htruthy : isTruthy cv = true)
    (hget : env.get xt = .ok v) :
    execStmt (f + 5)
        (.If cond [.Var xt (some (.Literal w)), .Print (.Variable xt)] none [])
        ⟨env, out⟩ =
      some (.ok ⟨env, out ++ [w]⟩) ∧
    env.get xt = .ok v := by
  refine ⟨?_, hget⟩
  simp only [execStmt, execBlock, execStmts, evalE, hcond, htruthy, if_true]
  simp [Environment.define, Environment.get, Environment.popScope, setKey,
    getKey, containsKey, IState.mk.injEq]

/-- Witness for C10: outer scope binds x to 1, the branch re-declares x
as 2 and prints it; afterwards the outer x is still 1. -/
theorem c10_if_branch_scope_witness :
    evalE (.Literal (.jbool true)) (.mk [("x", .num 1)] none) =
      .ok (.jbool true, .mk [("x", .num 1)] none) ∧
    isTruthy (.jbool true) = true ∧
    Environment.get (.mk [("x", .num 1)] none) xTok = .ok (.num 1) ∧
    (execStmt 5
        (.If (.Literal (.jbool true))
          [.Var xTok (some (.Literal (.num 2))), .Print (.Variable xTok)]
          none [])
        ⟨.mk [("x", .num 1)] none, []⟩ =
      some (.ok ⟨.mk [("x", .num 1)] none, [] ++ [.num 2]⟩) ∧
    Environment.get (.mk [("x", .num 1)] none) xTok = .ok (.num 1)) :=
  ⟨rfl, rfl, rfl,
    c10_if_branch_scope_shadows_and_restores 0 (.mk [("x", .num 1)] none)
      [] xTok (.num 1) (.num 2) (.Literal (.jbool true)) (.jbool true)
      rfl rfl rfl⟩

/-- A token that would CONTINUE the expression in the implementation
grammar beyond the arithmetic fragment (assignment, equality and
comparison operators). The spec-side arithmetic expression is only
"the parsed expression" when none of these follows it. -/
def contOp (t : Token) : Bool :=
  t.type = .ITU || t.type = .BANG_EQUAL || t.type = .EQUAL_EQUAL ||
  t.type = .GREATER || t.type = .GREATER_EQUAL || t.type = .LESS ||
  t.type = .LESS_EQUAL

mutual

/-- Modelled from the spec (sections 4.3 and 8, claim C6): the value of
a single-line arithmetic expression built from number literals,
`+ - * /` and parentheses, under standard operator precedence (`*`,`/`
bind tighter than `+`,`-`) with left associativity. This is the
REFERENCE evaluator the implementation is compared against; it computes
the value directly while descending the standard grammar
(term → factor → primary). The fuel plumbing mirrors the
implementation's levels so the two recursions align; it is an artifact,
not part of the specified semantics. An expression is rejected (none)
when it leaves the arithmetic fragment. -/
def standardExpression : ℕ → List Token → Option (ℚ × List Token)
  | 0, _ => none
  | 1, _ => none
  | 2, _ => none
  | 3, _ => none
  | d + 4, toks =>
      (match standardTerm d toks with
       | some (v, rest) =>
           if contOp (rest.headD eofStandin) then none else some (v, rest)
       | none => none)
termination_by structural f _ => f

/-- Spec grammar: term → factor (("-" | "+") factor)*, left
associative. -/
def standardTerm : ℕ → List Token → Option (ℚ × List Token)
  | 0, _ => none
  | f + 1, toks =>
      match standardFactor f toks with
      | some (v, rest) => standardTermLoop f v rest
      | none => none
termination_by structural f _ => f

/-- Left-associative fold of the remaining ("-" | "+") factors. -/
def standardTermLoop : ℕ → ℚ → List Token → Option (ℚ × List Token)
  | f, v, toks =>
      match toks with
      | t :: rest =>
          if t.type = .MINUS || t.type = .PLUS then
            match f with
            | 0 => none
            | g + 1 =>
                match standardFactor g rest with
                | some (w, rest2) =>
                    standardTermLoop g
                      (if t.type = .MINUS then v - w else v + w) rest2
                | none => none
          else some (v, toks)
      | [] => some (v, toks)
termination_by structural f _ _ => f

/-- Spec grammar: factor → primary (("*" | "/") primary)*, left
associative (the arithmetic fragment has no unary operators; the
intermediate level mirrors the implementation's unary level for fuel
alignment only, see standardUnary). -/
def standardFactor : ℕ → List Token → Option (ℚ × List Token)
  | 0, _ => none
  | f + 1, toks =>
      match standardUnary f toks with
      | some (v, rest) => standardFactorLoop f v rest
      | none => none
termination_by structural f _ => f

/-- Left-associative fold of the remaining ("*" | "/") primaries. -/
def standardFactorLoop : ℕ → ℚ → List Token → Option (ℚ × List Token)
  | f, v, toks =>
      match toks with
      | t :: rest =>
          if t.type = .STAR || t.type = .SLASH then
            match f with
            | 0 => none
            | g + 1 =>
                match standardUnary g rest with
                | some (w, rest2) =>
                    standardFactorLoop g
                      (if t.type = .STAR then v * w else v / w) rest2
                | none => none
          else some (v, toks)
      | [] => some (v, toks)
termination_by structural f _ _ => f

/-- The arithmetic fragment has no unary operators; this level only
mirrors the implementation's unary level so that the fuels align. -/
def standardUnary : ℕ → List Token → Option (ℚ × List Token)
  | 0, _ => none
  | f + 1, toks => standardPrimary f toks
termination_by structural f _ => f

/-- Spec grammar: primary → NUMBER | "(" expression ")". -/
def standardPrimary : ℕ → List Token → Option (ℚ × List Token)
  | 0, _ => none
  | f + 1, toks =>
      match toks with
      | t :: rest =>
          if t.type = .NUMBER then
            match t.literal with
            | .num q => some (q, rest)
            | _ => none
          else if t.type = .LEFT_PAREN then
            match standardExpression f rest with
            | some (v, r :: rest2) =>
                if r.type = .RIGHT_PAREN then some (v, rest2) else none
            | _ => none
          else none
      | [] => none
termination_by structural f _ => f

end

/-- The parsed expression evaluates to the number v in every
environment, without touching it. -/
def evalOk (e : Expr) (v : ℚ) : Prop :=
  ∀ env : Environment, evalE e env = .ok (.num v, env)

/-- The end-to-end number computed for a one-line expression source:
scan it, parse an expression with the driver's fuel (source length plus
32, exactly as `run` supplies it), evaluate the parsed expression in a
fresh empty environment, and extract the numeric result; `none` when any
stage rejects. -/
def evalArith (source : String) : Option ℚ :=
  match expressionP (source.length + 32) ⟨(scanTokens source.data).1, []⟩ with
  | .ok e _ =>
      match evalE e (.mk [] none) with
      | .ok (.num q, _) => some q
      | _ => none
  | .err _ _ => none

theorem checkT_false (t : TokenType) (st : PState)
    (h : (peekT st).type ≠ t) : checkT t st = false := by
  simp [checkT, h]

theorem checkT_true_cons (t : TokenType) (tk : Token) (r : List Token)
    (errs : List (Token × String)) (h : tk.type = t) (hne : t ≠ .EOF) :
    checkT t ⟨tk :: r, errs⟩ = true := by
  simp [checkT, isAtEndP, peekT, h, hne]

theorem advanceT_cons (tk : Token) (r : List Token)
    (errs : List (Token × String)) (h : tk.type ≠ .EOF) :
    advanceT ⟨tk :: r, errs⟩ = (tk, ⟨r, errs⟩) := by
  simp [advanceT, h]

theorem matchT_none (t : TokenType) (st : PState)
    (h : (peekT st).type ≠ t) : matchT t st = none := by
  simp [matchT, checkT_false t st h]

theorem matchT_some_cons (t : TokenType) (tk : Token) (r : List Token)
    (errs : List (Token × String)) (h : tk.type = t) (hne : t ≠ .EOF) :
    matchT t ⟨tk :: r, errs⟩ = some (tk, ⟨r, errs⟩) := by
  simp [matchT, checkT_true_cons t tk r errs h hne,
    advanceT_cons tk r errs (by rw [h]; exact hne)]

theorem evalOk_lit (q : ℚ) : evalOk (.Literal (.num q)) q :=
  fun _ => rfl

theorem evalOk_group (e : Expr) (v : ℚ) (h : evalOk e v) :
    evalOk (.Grouping e) v :=
  fun env => h env

theorem evalOk_plus (e1 e2 : Expr) (v w : ℚ) (t : Token)
    (ht : t.type = .PLUS) (h1 : evalOk e1 v) (h2 : evalOk e2 w) :
    evalOk (.Binary e1 t e2) (v + w) := by
  intro env
  simp [evalE, h1 env, h2 env, ht]

theorem evalOk_minus (e1 e2 : Expr) (v w : ℚ) (t : Token)
    (ht : t.type = .MINUS) (h1 : evalOk e1 v) (h2 : evalOk e2 w) :
    evalOk (.Binary e1 t e2) (v - w) := by
  intro env
  simp [evalE, h1 env, h2 env, ht]

theorem evalOk_star (e1 e2 : Expr) (v w : ℚ) (t : Token)
    (ht : t.type = .STAR) (h1 : evalOk e1 v) (h2 : evalOk e2 w) :
    evalOk (.Binary e1 t e2) (v * w) := by
  intro env
  simp [evalE, h1 env, h2 env, ht]

theorem evalOk_slash (e1 e2 : Expr) (v w : ℚ) (t : Token)
    (ht : t.type = .SLASH) (h1 : evalOk e1 v) (h2 : evalOk e2 w) :
    evalOk (.Binary e1 t e2) (v / w) := by
  intro env
  simp [evalE, h1 env, h2 env, ht]

theorem standardPrimary_head (u : ℕ) (toks : List Token) (v : ℚ)
    (rest : List Token) (h : standardPrimary u toks = some (v, rest)) :
    ∃ t rest0, toks = t :: rest0 ∧
      (t.type = .NUMBER ∨ t.type = .LEFT_PAREN) := by
  match u, toks with
  | 0, _ => simp [standardPrimary] at h
  | p + 1, [] => simp [standardPrimary] at h
  | p + 1, t :: rest0 =>
      refine ⟨t, rest0, rfl, ?_⟩
      by_cases hN : t.type = .NUMBER
      · exact Or.inl hN
      · by_cases hL : t.type = .LEFT_PAREN
        · exact Or.inr hL
        · simp [standardPrimary, hN, hL] at h

theorem peek_cons_ne (t : Token) (r : List Token)
    (errs : List (Token × String)) (τ : TokenType) (h : t.type ≠ τ) :
    (peekT ⟨t :: r, errs⟩).type ≠ τ := by
  simpa [peekT] using h

theorem consumeT_cons_ok (τ : TokenType) (msg : String) (tk : Token)
    (r : List Token) (errs : List (Token × String)) (h : tk.type = τ)
    (hne : τ ≠ .EOF) :
    consumeT τ msg ⟨tk :: r, errs⟩ = .ok tk ⟨r, errs⟩ := by
  simp [consumeT, checkT_true_cons τ tk r errs h hne,
    advanceT_cons tk r errs (by rw [h]; exact hne)]

theorem primaryP_number (g : ℕ) (t : Token) (rest0 : List Token)
    (errs : List (Token × String)) (hN : t.type = .NUMBER) :
    primaryP (g + 1) ⟨t :: rest0, errs⟩ =
      .ok (.Literal t.literal) ⟨rest0, errs⟩ := by
  simp only [primaryP]
  rw [matchT_none _ _ (peek_cons_ne t rest0 errs _ (by rw [hN]; decide)),
    matchT_none _ _ (peek_cons_ne t rest0 errs _ (by rw [hN]; decide)),
    matchT_none _ _ (peek_cons_ne t rest0 errs _ (by rw [hN]; decide)),
    matchT_some_cons .NUMBER t rest0 errs hN (by decide)]

theorem primaryP_paren (g : ℕ) (t : Token) (rest0 : List Token)
    (errs : List (Token × String)) (hL : t.type = .LEFT_PAREN) :
    primaryP (g + 1) ⟨t :: rest0, errs⟩ =
      (match expressionP g ⟨rest0, errs⟩ with
       | .err e st2 => .err e st2
       | .ok inner st2 =>
           match consumeT .RIGHT_PAREN "Expect \')\' after expression." st2 with
           | .err e st3 => .err e st3
           | .ok _ st3 => .ok (.Grouping inner) st3) := by
  simp only [primaryP]
  rw [matchT_none _ _ (peek_cons_ne t rest0 errs _ (by rw [hL]; decide)),
    matchT_none _ _ (peek_cons_ne t rest0 errs _ (by rw [hL]; decide)),
    matchT_none _ _ (peek_cons_ne t rest0 errs _ (by rw [hL]; decide)),
    matchT_none _ _ (peek_cons_ne t rest0 errs _ (by rw [hL]; decide)),
    matchT_none _ _ (peek_cons_ne t rest0 errs _ (by rw [hL]; decide)),
    matchT_none _ _ (peek_cons_ne t rest0 errs _ (by rw [hL]; decide)),
    matchT_some_cons .LEFT_PAREN t rest0 errs hL (by decide)]

theorem unaryP_no_op (u : ℕ) (st : PState)
    (h1 : (peekT st).type ≠ .BANG) (h2 : (peekT st).type ≠ .MINUS) :
    unaryP (u + 1) st = primaryP u st := by
  simp [unaryP, checkT_false _ _ h1, checkT_false _ _ h2]

theorem factorLoop_exit (g : ℕ) (e : Expr) (st : PState)
    (h1 : checkT .STAR st = false) (h2 : checkT .SLASH st = false) :
    factorLoop g e st = .ok e st := by
  rw [factorLoop.eq_def]
  simp [h1, h2]

theorem termLoop_exit (g : ℕ) (e : Expr) (st : PState)
    (h1 : checkT .MINUS st = false) (h2 : checkT .PLUS st = false) :
    termLoop g e st = .ok e st := by
  rw [termLoop.eq_def]
  simp [h1, h2]

theorem comparisonLoop_exit (g : ℕ) (e : Expr) (st : PState)
    (h1 : checkT .GREATER st = false) (h2 : checkT .GREATER_EQUAL st = false)
    (h3 : checkT .LESS st = false) (h4 : checkT .LESS_EQUAL st = false) :
    comparisonLoop g e st = .ok e st := by
  rw [comparisonLoop.eq_def]
  simp [h1, h2, h3, h4]

theorem equalityLoop_exit (g : ℕ) (e : Expr) (st : PState)
    (h1 : checkT .BANG_EQUAL st = false) (h2 : checkT .EQUAL_EQUAL st = false) :
    equalityLoop g e st = .ok e st := by
  rw [equalityLoop.eq_def]
  simp [h1, h2]

theorem standardAgree (f : ℕ) :
    (∀ toks v rest errs, standardPrimary f toks = some (v, rest) →
      ∃ e, primaryP f ⟨toks, errs⟩ = .ok e ⟨rest, errs⟩ ∧ evalOk e v) ∧
    (∀ toks v rest errs, standardUnary f toks = some (v, rest) →
      ∃ e, unaryP f ⟨toks, errs⟩ = .ok e ⟨rest, errs⟩ ∧ evalOk e v) ∧
    (∀ toks v rest errs, standardFactor f toks = some (v, rest) →
      ∃ e, factorP f ⟨toks, errs⟩ = .ok e ⟨rest, errs⟩ ∧ evalOk e v) ∧
    (∀ toks v rest errs, standardTerm f toks = some (v, rest) →
      ∃ e, termP f ⟨toks, errs⟩ = .ok e ⟨rest, errs⟩ ∧ evalOk e v) ∧
    (∀ v toks w rest errs e, standardFactorLoop f v toks = some (w, rest) →
      evalOk e v →
      ∃ e2, factorLoop f e ⟨toks, errs⟩ = .ok e2 ⟨rest, errs⟩ ∧ evalOk e2 w) ∧
    (∀ v toks w rest errs e, standardTermLoop f v toks = some (w, rest) →
      evalOk e v →
      ∃ e2, termLoop f e ⟨toks, errs⟩ = .ok e2 ⟨rest, errs⟩ ∧ evalOk e2 w) ∧
    (∀ toks v rest errs, standardExpression f toks = some (v, rest) →
      ∃ e, expressionP f ⟨toks, errs⟩ = .ok e ⟨rest, errs⟩ ∧ evalOk e v) := by
  induction f using Nat.strong_induction_on with
  | _ f ih =>
  refine ⟨?_, ?_, ?_, ?_, ?_, ?_, ?_⟩
  -- primary
  · intro toks v rest errs h
    rcases f with _ | g
    · simp [standardPrimary] at h
    rcases toks with _ | ⟨t, rest0⟩
    · simp [standardPrimary] at h
    by_cases hN : t.type = .NUMBER
    · rcases hlit : t.literal with q | s | b | _
      · simp [standardPrimary, hN, hlit] at h
        obtain ⟨hq, hr⟩ := h
        refine ⟨.Literal t.literal, ?_, ?_⟩
        · rw [primaryP_number g t rest0 errs hN, hr]
        · subst hq
          rw [hlit]
          exact evalOk_lit _
      · simp [standardPrimary, hN, hlit] at h
      · simp [standardPrimary, hN, hlit] at h
      · simp [standardPrimary, hN, hlit] at h
    · by_cases hL : t.type = .LEFT_PAREN
      · simp only [standardPrimary] at h
        rw [if_neg hN, if_pos hL] at h
        rcases hse : standardExpression g rest0 with _ | ⟨v1, rest1⟩
        · rw [hse] at h
          simp at h
        · rw [hse] at h
          rcases rest1 with _ | ⟨r, rest2⟩
          · simp at h
          · by_cases hr : r.type = .RIGHT_PAREN
            · simp [hr] at h
              obtain ⟨hv, hrest⟩ := h
              obtain ⟨e, hpe, hev⟩ :=
                (ih g (by omega)).2.2.2.2.2.2 rest0 v1 (r :: rest2) errs hse
              refine ⟨.Grouping e, ?_, ?_⟩
              · simp only [primaryP_paren g t rest0 errs hL, hpe,
                  consumeT_cons_ok .RIGHT_PAREN
                    "Expect \')\' after expression." r rest2 errs hr
                    (by decide)]
                rw [hrest]
              · exact hv ▸ evalOk_group e v1 hev
            · simp [hr] at h
      · simp [standardPrimary, hN, hL] at h
  -- unary
  · intro toks v rest errs h
    rcases f with _ | u
    · simp [standardUnary] at h
    · simp only [standardUnary] at h
      obtain ⟨t, rest0, htoks, hty⟩ := standardPrimary_head u toks v rest h
      obtain ⟨e, hp, hev⟩ := (ih u (by omega)).1 toks v rest errs h
      refine ⟨e, ?_, hev⟩
      subst htoks
      rw [unaryP_no_op u _ ?_ ?_]
      · exact hp
      · rcases hty with h1 | h1 <;>
          exact peek_cons_ne _ _ _ _ (by rw [h1]; decide)
      · rcases hty with h1 | h1 <;>
          exact peek_cons_ne _ _ _ _ (by rw [h1]; decide)
  -- factor
  · intro toks v rest errs h
    rcases f with _ | g
    · simp [standardFactor] at h
    · simp only [standardFactor] at h
      rcases hu : standardUnary g toks with _ | ⟨v1, rest1⟩
      · rw [hu] at h
        simp at h
      · rw [hu] at h
        obtain ⟨e1, hue, hev1⟩ := (ih g (by omega)).2.1 toks v1 rest1 errs hu
        obtain ⟨e2, hle, hev2⟩ :=
          (ih g (by omega)).2.2.2.2.1 v1 rest1 v rest errs e1 h hev1
        refine ⟨e2, ?_, hev2⟩
        simp only [factorP, hue]
        exact hle
  -- term
  · intro toks v rest errs h
    rcases f with _ | g
    · simp [standardTerm] at h
    · simp only [standardTerm] at h
      rcases hfa : standardFactor g toks with _ | ⟨v1, rest1⟩
      · rw [hfa] at h
        simp at h
      · rw [hfa] at h
        obtain ⟨e1, hfe, hev1⟩ := (ih g (by omega)).2.2.1 toks v1 rest1 errs hfa
        obtain ⟨e2, hle, hev2⟩ :=
          (ih g (by omega)).2.2.2.2.2.1 v1 rest1 v rest errs e1 h hev1
        refine ⟨e2, ?_, hev2⟩
        simp only [termP, hfe]
        exact hle
  -- factorLoop
  · intro v toks w rest errs e h hev
    rcases toks with _ | ⟨t, rest0⟩
    · rw [standardFactorLoop.eq_def] at h
      simp at h
      obtain ⟨hw, hr⟩ := h
      refine ⟨e, ?_, ?_⟩
      · rw [factorLoop_exit f e _ (checkT_false _ _ (by simp [peekT]; decide))
          (checkT_false _ _ (by simp [peekT]; decide))]
        rw [← hr]
      · exact hw ▸ hev
    · by_cases hop : t.type = .STAR ∨ t.type = .SLASH
      · have hcond : (decide (t.type = .STAR) || decide (t.type = .SLASH)) = true := by
          rcases hop with h1 | h1 <;> simp [h1]
        rw [standardFactorLoop.eq_def] at h
        simp only [hcond, if_true] at h
        rcases f with _ | g
        · simp at h
        · rcases hu : standardUnary g rest0 with _ | ⟨w1, rest2⟩
          · simp [hu] at h
          · simp only [hu] at h
            obtain ⟨e1, hue, hev1⟩ := (ih g (by omega)).2.1 rest0 w1 rest2 errs hu
            have hevB : evalOk (.Binary e t e1)
                (if t.type = .STAR then v * w1 else v / w1) := by
              rcases hop with h1 | h1
              · rw [if_pos h1]
                exact evalOk_star e e1 v w1 t h1 hev hev1
              · rw [if_neg (by rw [h1]; decide)]
                exact evalOk_slash e e1 v w1 t h1 hev hev1
            obtain ⟨e2, hle, hev2⟩ :=
              (ih g (by omega)).2.2.2.2.1 _ rest2 w rest errs (.Binary e t e1) h hevB
            refine ⟨e2, ?_, hev2⟩
            rw [factorLoop.eq_def]
            have hck : (checkT .STAR ⟨t :: rest0, errs⟩ ||
                checkT .SLASH ⟨t :: rest0, errs⟩) = true := by
              rcases hop with h1 | h1 <;>
                simp [checkT_true_cons _ t rest0 errs h1 (by decide)]
            simp [hck, advanceT_cons t rest0 errs
              (by rcases hop with h1 | h1 <;> (rw [h1]; decide)), hue, hle]
      · have h1 : t.type ≠ .STAR := fun hh => hop (Or.inl hh)
        have h2 : t.type ≠ .SLASH := fun hh => hop (Or.inr hh)
        rw [standardFactorLoop.eq_def] at h
        simp [h1, h2] at h
        obtain ⟨hw, hr⟩ := h
        refine ⟨e, ?_, ?_⟩
        · rw [factorLoop_exit f e _ (checkT_false _ _ (peek_cons_ne _ _ _ _ h1))
            (checkT_false _ _ (peek_cons_ne _ _ _ _ h2))]
          rw [← hr]
        · exact hw ▸ hev
  -- termLoop
  · intro v toks w rest errs e h hev
    rcases toks with _ | ⟨t, rest0⟩
    · rw [standardTermLoop.eq_def] at h
      simp at h
      obtain ⟨hw, hr⟩ := h
      refine ⟨e, ?_, ?_⟩
      · rw [termLoop_exit f e _ (checkT_false _ _ (by simp [peekT]; decide))
          (checkT_false _ _ (by simp [peekT]; decide))]
        rw [← hr]
      · exact hw ▸ hev
    · by_cases hop : t.type = .MINUS ∨ t.type = .PLUS
      · have hcond : (decide (t.type = .MINUS) || decide (t.type = .PLUS)) = true := by
          rcases hop with h1 | h1 <;> simp [h1]
        rw [standardTermLoop.eq_def] at h
        simp only [hcond, if_true] at h
        rcases f with _ | g
        · simp at h
        · rcases hfa : standardFactor g rest0 with _ | ⟨w1, rest2⟩
          · simp [hfa] at h
          · simp only [hfa] at h
            obtain ⟨e1, hfe, hev1⟩ := (ih g (by omega)).2.2.1 rest0 w1 rest2 errs hfa
            have hevB : evalOk (.Binary e t e1)
                (if t.type = .MINUS then v - w1 else v + w1) := by
              rcases hop with h1 | h1
              · rw [if_pos h1]
                exact evalOk_minus e e1 v w1 t h1 hev hev1
              · rw [if_neg (by rw [h1]; decide)]
                exact evalOk_plus e e1 v w1 t h1 hev hev1
            obtain ⟨e2, hle, hev2⟩ :=
              (ih g (by omega)).2.2.2.2.2.1 _ rest2 w rest errs (.Binary e t e1) h hevB
            refine ⟨e2, ?_, hev2⟩
            rw [termLoop.eq_def]
            have hck : (checkT .MINUS ⟨t :: rest0, errs⟩ ||
                checkT .PLUS ⟨t :: rest0, errs⟩) = true := by
              rcases hop with h1 | h1 <;>
                simp [checkT_true_cons _ t rest0 errs h1 (by decide)]
            simp [hck, advanceT_cons t rest0 errs
              (by rcases hop with h1 | h1 <;> (rw [h1]; decide)), hfe, hle]
      · have h1 : t.type ≠ .MINUS := fun hh => hop (Or.inl hh)
        have h2 : t.type ≠ .PLUS := fun hh => hop (Or.inr hh)
        rw [standardTermLoop.eq_def] at h
        simp [h1, h2] at h
        obtain ⟨hw, hr⟩ := h
        refine ⟨e, ?_, ?_⟩
        · rw [termLoop_exit f e _ (checkT_false _ _ (peek_cons_ne _ _ _ _ h1))
            (checkT_false _ _ (peek_cons_ne _ _ _ _ h2))]
          rw [← hr]
        · exact hw ▸ hev
  -- expression
  · intro toks v rest errs h
    rcases Nat.lt_or_ge f 4 with hf | hf
    · interval_cases f <;> simp [standardExpression] at h
    · obtain ⟨d, rfl⟩ : ∃ d, f = d + 4 := ⟨f - 4, by omega⟩
      simp only [standardExpression] at h
      rcases hterm : standardTerm d toks with _ | ⟨v1, rest1⟩
      · simp [hterm] at h
      · simp only [hterm] at h
        rcases hcont : contOp (rest1.headD eofStandin) with _ | _
        · simp only [hcont] at h
          simp at h
          obtain ⟨hv, hr⟩ := h
          obtain ⟨e, hte, hev⟩ := (ih d (by omega)).2.2.2.1 toks v1 rest1 errs hterm
          subst hv
          subst hr
          have hpeek : peekT ⟨rest1, errs⟩ = rest1.headD eofStandin := rfl
          simp only [contOp, Bool.or_eq_false_iff, decide_eq_false_iff_not] at hcont
          obtain ⟨⟨⟨⟨⟨⟨hITU, hBE⟩, hEE⟩, hGT⟩, hGE⟩, hLT⟩, hLE⟩ := hcont
          have hcomp : comparisonP (d + 1) ⟨toks, errs⟩ = .ok e ⟨rest1, errs⟩ := by
            simp only [comparisonP, hte]
            exact comparisonLoop_exit d e _
              (checkT_false _ _ (hpeek ▸ hGT)) (checkT_false _ _ (hpeek ▸ hGE))
              (checkT_false _ _ (hpeek ▸ hLT)) (checkT_false _ _ (hpeek ▸ hLE))
          have heq : equalityP (d + 2) ⟨toks, errs⟩ = .ok e ⟨rest1, errs⟩ := by
            simp only [equalityP, hcomp]
            exact equalityLoop_exit (d + 1) e _
              (checkT_false _ _ (hpeek ▸ hBE)) (checkT_false _ _ (hpeek ▸ hEE))
          have hass : assignmentP (d + 3) ⟨toks, errs⟩ = .ok e ⟨rest1, errs⟩ := by
            simp only [assignmentP, heq]
            rw [matchT_none .ITU _ (hpeek ▸ hITU)]
          refine ⟨e, ?_, hev⟩
          simp only [expressionP, hass]
        · simp only [List.headD_eq_head?_getD] at hcont
          simp [hcont] at h

/-- C6: every single-line arithmetic expression over number literals,
`+ - * /` and parentheses that the standard-precedence left-associative
reference evaluator accepts is parsed by the implementation's expression
parser into an expression whose evaluation yields exactly the reference
value, in every environment; in particular the interpreter computes
`2 + 3 * 4` to 14 and `(2 + 3) * 4` to 20. -/
theorem c6_arith_standard_precedence :
    (∀ f toks v rest errs, standardExpression f toks = some (v, rest) →
        ∃ e, expressionP f ⟨toks, errs⟩ = .ok e ⟨rest, errs⟩ ∧ evalOk e v) ∧
    evalArith "2 + 3 * 4" = some 14 ∧ evalArith "(2 + 3) * 4" = some 20 := by
  refine ⟨?_, ?_, ?_⟩
  · intro f toks v rest errs h
    exact (standardAgree f).2.2.2.2.2.2 toks v rest errs h
  · have hp : expressionP ("2 + 3 * 4".length + 32)
        ⟨(scanTokens "2 + 3 * 4".data).1, []⟩ =
        .ok (.Binary (.Literal (.num 2)) ⟨.PLUS, "+", .vnull, 1, 3⟩
            (.Binary (.Literal (.num 3)) ⟨.STAR, "*", .vnull, 1, 7⟩
              (.Literal (.num 4))))
          ⟨[⟨.EOF, "", .vnull, 1, 10⟩], []⟩ := by decide
    simp only [evalArith, hp]
    norm_num [evalE]
  · have hp : expressionP ("(2 + 3) * 4".length + 32)
        ⟨(scanTokens "(2 + 3) * 4".data).1, []⟩ =
        .ok (.Binary
            (.Grouping (.Binary (.Literal (.num 2))
              ⟨.PLUS, "+", .vnull, 1, 4⟩ (.Literal (.num 3))))
            ⟨.STAR, "*", .vnull, 1, 9⟩ (.Literal (.num 4)))
          ⟨[⟨.EOF, "", .vnull, 1, 12⟩], []⟩ := by decide
    simp only [evalArith, hp]
    norm_num [evalE]

/-- Witness for C6 at the one-token arithmetic input `7`: the reference
evaluator accepts it with value 7, and the theorem then yields a parsed
expression evaluating to 7. -/
theorem c6_arith_standard_precedence_witness :
    standardExpression 8 (scanTokens "7".data).1 =
        some (7, [⟨.EOF, "", .vnull, 1, 2⟩]) ∧
    ∃ e, expressionP 8 ⟨(scanTokens "7".data).1, []⟩ =
        .ok e ⟨[⟨.EOF, "", .vnull, 1, 2⟩], []⟩ ∧ evalOk e 7 :=
  ⟨by decide, c6_arith_standard_precedence.1 8 (scanTokens "7".data).1 7
      [⟨.EOF, "", .vnull, 1, 2⟩] [] (by decide)⟩
